import Mathlib

/-!
Shallow embedding of the batched deal aggregator of the
`steam_wishlist_deals` repository.

The embedded code:
* `chunks` / `chunksLoop` — the batching loop of
  `src/client/src/components/DealsGG.tsx` (`for (let i = 0; i <
  appids.length; i += BATCH_SIZE) results.push(appids.slice(i, i +
  BATCH_SIZE))`).
* `QueryState`, `isLoading`, `errors`, `allData`, `loadedCount`,
  `render` — the per-chunk query observables and the aggregate
  status / render decision of the same component.
* `queryKey` — the cache key `['appids', chunk]` given to `useQueries`.
* `fetchDealsGG` — the API wrapper of `src/api.ts` (a single POST whose
  failure is logged and rethrown unchanged).
* `CacheEntry`, `lookupCache`, `cacheFresh`, `issuesNetworkCall` — the
  surrounding fetch-cache layer (react-query with `staleTime` 5 minutes),
  modelled from the spec since the library is an external collaborator.
-/

namespace SteamDeals

/-- Price structure of a deal record (interface `DealsGGPrices` in
`types/steam.ts`). Prices are carried opaquely; the aggregator never
computes with them. -/
structure DealsGGPrices where
  retail_price : Int
  retail_price_low : Int
  keyshop_price : Int
  keyshop_price_low : Int
deriving DecidableEq

/-- One deal record (interface `DealsGGItem` in `types/steam.ts`). -/
structure DealsGGItem where
  appid : Nat
  name : String
  url : String
  image_url : String
  prices : DealsGGPrices
  currency : String
deriving DecidableEq

/-- The fixed batch size `const BATCH_SIZE = 50` of `DealsGG.tsx`. -/
def BATCH_SIZE : Nat := 50

/-- The batching loop of `DealsGG.tsx`:
`for (let i = 0; i < appids.length; i += BATCH_SIZE)
   results.push(appids.slice(i, i + BATCH_SIZE))`.
`appids.slice(i, i + BATCH_SIZE)` is `(appids.drop i).take BATCH_SIZE`;
each recursive call is one loop iteration at index `i`. -/
def chunksLoop (appids : List Nat) (i : Nat) : List (List Nat) :=
  if i < appids.length then
    ((appids.drop i).take BATCH_SIZE) :: chunksLoop appids (i + BATCH_SIZE)
  else
    []
termination_by appids.length - i
decreasing_by
  simp only [BATCH_SIZE]
  omega

/-- `const chunks = ...` in `DealsGG.tsx`: the loop is entered at `i = 0`. -/
def chunks (appids : List Nat) : List (List Nat) :=
  chunksLoop appids 0

/-- The observable state of one chunk query as tracked by `useQueries`:
pending (`isLoading`), succeeded (`data` present), or failed (`error`
present). -/
inductive QueryState where
  | pending : QueryState
  | succeeded : List DealsGGItem → QueryState
  | failed : String → QueryState
deriving DecidableEq

/-- `q.isLoading` of a chunk query. -/
def QueryState.isLoading : QueryState → Bool
  | .pending => true
  | .succeeded _ => false
  | .failed _ => false

/-- `q.data` of a chunk query: present exactly on success. -/
def QueryState.data : QueryState → Option (List DealsGGItem)
  | .succeeded d => some d
  | _ => none

/-- `q.error` of a chunk query (its message): present exactly on failure. -/
def QueryState.error : QueryState → Option String
  | .failed e => some e
  | _ => none

/-- `const isLoading = queries.some(q => q.isLoading)` in `DealsGG.tsx`. -/
def isLoading (queries : List QueryState) : Bool :=
  queries.any fun q => q.isLoading

/-- `const errors = queries.filter(q => q.error).map(q => q.error)` in
`DealsGG.tsx`: the JS filter keeps exactly the queries whose `error` is
set, so the filter-then-map is `filterMap` on the error field. -/
def errors (queries : List QueryState) : List String :=
  queries.filterMap fun q => q.error

/-- `const allData = queries.filter(q => q.data).flatMap(q => q.data!)` in
`DealsGG.tsx`; the non-null assertion `q.data!` is modelled by `getD []`,
reached only when the filter has established `isSome`. -/
def allData (queries : List QueryState) : List DealsGGItem :=
  (queries.filter fun q => q.data.isSome).flatMap fun q => q.data.getD []

/-- `const loadedCount = queries.filter(q => q.data).length` in
`DealsGG.tsx` (computed inside the `isLoading` branch). -/
def loadedCount (queries : List QueryState) : Nat :=
  (queries.filter fun q => q.data.isSome).length

/-- The three renders `DealsGG` can return: the loading banner with its
progress counter, the error banner with one message, or the list of deal
records handed to the rendering layer. -/
inductive AggregateView where
  | loadingView : Nat → Nat → AggregateView
  | errorView : String → AggregateView
  | dealsView : List DealsGGItem → AggregateView
deriving DecidableEq

/-- The render decision of `DealsGG.tsx`:
`if (isLoading) return <Loading {loadedCount}/{chunks.length}>`;
`if (errors.length > 0) return <Error {errors[0]?.message}>`;
otherwise render `allData`. `errors[0]?.message` is modelled by
`headD ""` (the branch is only taken when `errors` is non-empty). -/
def render (queries : List QueryState) (numChunks : Nat) : AggregateView :=
  if isLoading queries then
    .loadingView (loadedCount queries) numChunks
  else if (errors queries).length > 0 then
    .errorView ((errors queries).headD "")
  else
    .dealsView (allData queries)

/-- The cache key `['appids', chunk]` of each query in `useQueries`. -/
def queryKey (chunk : List Nat) : String × List Nat :=
  ("appids", chunk)

/-- The cache keys of all queries issued for an identifier list: one per
chunk, in chunk order (`chunks.map((chunk, index) => ({ queryKey:
['appids', chunk], ... }))`). -/
def queryKeys (appids : List Nat) : List (String × List Nat) :=
  (chunks appids).map queryKey

/-- The response of one `axios.post('/api/dealsgg/games', { appids })`:
either the parsed body or a transport/status failure with its message. -/
inductive NetResponse where
  | ok : List DealsGGItem → NetResponse
  | fail : String → NetResponse
deriving DecidableEq

/-- `fetchDealsGG` of `src/api.ts`: one POST; on success `return res.data`;
on failure the error is logged (`console.log`, no effect on the value) and
rethrown unchanged (`throw error`). No retry and no fallback value. -/
def fetchDealsGG (response : NetResponse) : Except String (List DealsGGItem) :=
  match response with
  | .ok d => .ok d
  | .fail e => .error e

/-- `staleTime: 5 * 60 * 1000` of each query in `DealsGG.tsx`
(milliseconds). -/
def staleTime : Nat := 5 * 60 * 1000

/-- Modelled from the spec: one entry of the external fetch-cache layer
(react-query), `key → {value, timestamp}`; the library itself is not part
of the repository. -/
structure CacheEntry where
  value : List DealsGGItem
  timestamp : Nat
deriving DecidableEq

/-- Modelled from the spec: an entry is fresh while less than `staleTime`
milliseconds old; a fresh entry is reused rather than re-fetched. -/
def cacheFresh (entry : CacheEntry) (now : Nat) : Bool :=
  now - entry.timestamp < staleTime

/-- Modelled from the spec: look a query key up in the cache. -/
def lookupCache (cache : List ((String × List Nat) × CacheEntry))
    (key : String × List Nat) : Option CacheEntry :=
  (cache.find? fun entry => decide (entry.1 = key)).map fun entry => entry.2

/-- Modelled from the spec: a query issues a network call exactly when its
key has no fresh cache entry. -/
def issuesNetworkCall (cache : List ((String × List Nat) × CacheEntry))
    (now : Nat) (key : String × List Nat) : Bool :=
  match lookupCache cache key with
  | some entry => !(cacheFresh entry now)
  | none => true

/-- Modelled from the spec: how many of the chunk queries of an identifier
list issue a network call against the given cache. -/
def networkCallsIssued (cache : List ((String × List Nat) × CacheEntry))
    (now : Nat) (appids : List Nat) : Nat :=
  ((queryKeys appids).filter fun k => issuesNetworkCall cache now k).length

/-! ### Helper lemmas about the batching loop -/

theorem chunksLoop_unfold (appids : List Nat) (i : Nat) :
    chunksLoop appids i =
      if i < appids.length then
        ((appids.drop i).take BATCH_SIZE) :: chunksLoop appids (i + BATCH_SIZE)
      else [] := by
  rw [chunksLoop]

theorem chunksLoop_flatten (appids : List Nat) (i : Nat) :
    (chunksLoop appids i).flatten = appids.drop i := by
  induction i using chunksLoop.induct appids with
  | case1 i h ih =>
    rw [chunksLoop_unfold, if_pos h]
    rw [List.flatten_cons, ih]
    rw [show appids.drop (i + BATCH_SIZE) = (appids.drop i).drop BATCH_SIZE by
      rw [List.drop_drop, Nat.add_comm i BATCH_SIZE]]
    exact List.take_append_drop _ _
  | case2 i h =>
    rw [chunksLoop_unfold, if_neg h]
    rw [List.drop_eq_nil_of_le (by omega)]
    rfl

theorem chunksLoop_length (appids : List Nat) (i : Nat) :
    (chunksLoop appids i).length =
      (appids.length - i + BATCH_SIZE - 1) / BATCH_SIZE := by
  induction i using chunksLoop.induct appids with
  | case1 i h ih =>
    rw [chunksLoop_unfold, if_pos h]
    rw [List.length_cons, ih]
    simp only [BATCH_SIZE] at *
    omega
  | case2 i h =>
    rw [chunksLoop_unfold, if_neg h]
    simp only [BATCH_SIZE, List.length_nil]
    omega

theorem chunksLoop_get (appids : List Nat) (i : Nat) :
    ∀ (j : Nat) (h : j < (chunksLoop appids i).length),
      (chunksLoop appids i).get ⟨j, h⟩ =
        (appids.drop (i + BATCH_SIZE * j)).take BATCH_SIZE := by
  induction i using chunksLoop.induct appids with
  | case1 i hi ih =>
    intro j h
    have hu := chunksLoop_unfold appids i
    rw [if_pos hi] at hu
    cases j with
    | zero =>
      simp only [Nat.mul_zero, Nat.add_zero]
      simp only [List.get_eq_getElem]
      conv in chunksLoop appids i => rw [hu]
      rfl
    | succ j =>
      have hlen : j < (chunksLoop appids (i + BATCH_SIZE)).length := by
        have hh := h
        rw [hu] at hh
        simpa using hh
      have hres := ih j hlen
      simp only [List.get_eq_getElem] at hres ⊢
      conv in chunksLoop appids i => rw [hu]
      simp only [List.getElem_cons_succ]
      rw [hres]
      ring_nf
  | case2 i hi =>
    intro j h
    exfalso
    have hu := chunksLoop_unfold appids i
    rw [if_neg hi] at hu
    rw [hu] at h
    simp at h

theorem chunksLoop_mem (appids : List Nat) (i : Nat) :
    ∀ c ∈ chunksLoop appids i, c.length ≤ BATCH_SIZE ∧ c ≠ [] := by
  induction i using chunksLoop.induct appids with
  | case1 i h ih =>
    intro c hc
    have hu := chunksLoop_unfold appids i
    rw [if_pos h] at hu
    rw [hu] at hc
    rcases List.mem_cons.mp hc with rfl | hmem
    · refine ⟨List.length_take_le _ _, ?_⟩
      have hdrop : appids.drop i ≠ [] := by
        intro hnil
        have := List.drop_eq_nil_iff.mp hnil
        omega
      intro hnil
      rcases List.take_eq_nil_iff.mp hnil with h0 | hd
      · simp [BATCH_SIZE] at h0
      · exact hdrop hd
    · exact ih c hmem
  | case2 i h =>
    intro c hc
    have hu := chunksLoop_unfold appids i
    rw [if_neg h] at hu
    rw [hu] at hc
    simp at hc

theorem chunks_get_length (appids : List Nat) (j : Nat)
    (h : j < (chunks appids).length) :
    ((chunks appids).get ⟨j, h⟩).length =
      min BATCH_SIZE (appids.length - BATCH_SIZE * j) := by
  have hg := chunksLoop_get appids 0 j h
  rw [Nat.zero_add] at hg
  show ((chunksLoop appids 0).get ⟨j, h⟩).length = _
  rw [hg, List.length_take, List.length_drop]

/-! ### Helper lemmas about the aggregate state -/

theorem isLoading_eq_true_iff (q : QueryState) :
    q.isLoading = true ↔ q = .pending := by
  cases q <;> simp [QueryState.isLoading]

theorem isLoading_iff (queries : List QueryState) :
    isLoading queries = true ↔ QueryState.pending ∈ queries := by
  simp [isLoading, List.any_eq_true, isLoading_eq_true_iff]

theorem data_isSome_iff (q : QueryState) :
    q.data.isSome = true ↔ ∃ d, q = .succeeded d := by
  cases q <;> simp [QueryState.data]

@[simp] theorem data_pending_eq : QueryState.pending.data = none := rfl

@[simp] theorem data_succeeded_eq (d : List DealsGGItem) :
    (QueryState.succeeded d).data = some d := rfl

@[simp] theorem data_failed_eq (e : String) :
    (QueryState.failed e).data = none := rfl

@[simp] theorem error_pending_eq : QueryState.pending.error = none := rfl

@[simp] theorem error_succeeded_eq (d : List DealsGGItem) :
    (QueryState.succeeded d).error = none := rfl

@[simp] theorem error_failed_eq (e : String) :
    (QueryState.failed e).error = some e := rfl

@[simp] theorem isLoading_pending_eq : QueryState.pending.isLoading = true := rfl

@[simp] theorem isLoading_succeeded_eq (d : List DealsGGItem) :
    (QueryState.succeeded d).isLoading = false := rfl

@[simp] theorem isLoading_failed_eq (e : String) :
    (QueryState.failed e).isLoading = false := rfl

theorem allData_map_succeeded (datas : List (List DealsGGItem)) :
    allData (datas.map QueryState.succeeded) = datas.flatten := by
  induction datas with
  | nil => rfl
  | cons d ds ih =>
    simp only [allData] at ih
    simp only [List.map_cons, allData, List.filter_cons, data_succeeded_eq,
      Option.isSome_some, if_true, List.flatMap_cons, Option.getD_some,
      List.flatten_cons]
    rw [ih]

theorem errors_map_succeeded (datas : List (List DealsGGItem)) :
    errors (datas.map QueryState.succeeded) = [] := by
  induction datas with
  | nil => rfl
  | cons d ds ih =>
    simp only [errors] at ih
    simp only [List.map_cons, errors, List.filterMap_cons, error_succeeded_eq]
    rw [ih]

theorem isLoading_map_succeeded (datas : List (List DealsGGItem)) :
    isLoading (datas.map QueryState.succeeded) = false := by
  induction datas with
  | nil => rfl
  | cons d ds ih =>
    simp only [isLoading] at ih
    simp only [List.map_cons, isLoading, List.any_cons, isLoading_succeeded_eq,
      Bool.false_or]
    exact ih

/-- Tests whether a chunk query has succeeded (used to state that the
progress counter counts exactly the succeeded chunks). -/
def isSucceeded : QueryState → Bool
  | .succeeded _ => true
  | _ => false

theorem data_isSome_eq_isSucceeded (q : QueryState) :
    q.data.isSome = isSucceeded q := by
  cases q <;> rfl

/-! ### The claims -/

/-- C1: for every identifier list of length N the chunking step produces
exactly ceil(N / 50) chunks, each chunk has at most BATCH_SIZE = 50
elements, and concatenating all chunks in order reproduces the original
list exactly; for N = 50 exactly one chunk is produced and for N = 51
exactly two chunks of sizes 50 and 1. -/
theorem chunks_partition (appids : List Nat) :
    (chunks appids).length = (appids.length + BATCH_SIZE - 1) / BATCH_SIZE ∧
    (chunks appids).flatten = appids ∧
    (∀ c ∈ chunks appids, c.length ≤ BATCH_SIZE) ∧
    (appids.length = 50 → (chunks appids).length = 1) ∧
    (appids.length = 51 →
      (chunks appids).length = 2 ∧
      (chunks appids).map List.length = [50, 1]) := by
  refine ⟨?_, ?_, ?_, ?_, ?_⟩
  · rw [chunks, chunksLoop_length, Nat.sub_zero]
  · rw [chunks, chunksLoop_flatten, List.drop_zero]
  · intro c hc
    exact (chunksLoop_mem appids 0 c hc).1
  · intro h50
    rw [chunks, chunksLoop_length, h50]
    decide
  · intro h51
    have hlen : (chunks appids).length = 2 := by
      rw [chunks, chunksLoop_length, h51]
      decide
    refine ⟨hlen, ?_⟩
    have hchunks : chunks appids =
        [(appids.drop 0).take BATCH_SIZE,
         (appids.drop (0 + BATCH_SIZE)).take BATCH_SIZE] := by
      rw [chunks]
      rw [chunksLoop_unfold, if_pos (by omega)]
      rw [chunksLoop_unfold, if_pos (by simp only [BATCH_SIZE]; omega)]
      rw [chunksLoop_unfold, if_neg (by simp only [BATCH_SIZE]; omega)]
    rw [hchunks]
    simp only [List.map_cons, List.map_nil, List.length_take,
      List.length_drop, h51]
    decide

/-- C2: when every chunk lookup has succeeded, the render is the succeeded
view carrying the concatenation of all chunks' deal-record lists in chunk
order, and the aggregate result length is the sum of the per-chunk record
counts. -/
theorem all_succeeded_concat (datas : List (List DealsGGItem)) (n : Nat) :
    render (datas.map QueryState.succeeded) n =
      .dealsView datas.flatten ∧
    (allData (datas.map QueryState.succeeded)).length =
      (datas.map List.length).sum := by
  constructor
  · rw [render, if_neg (by rw [isLoading_map_succeeded]; simp),
      if_neg (by rw [errors_map_succeeded]; simp)]
    rw [allData_map_succeeded]
  · rw [allData_map_succeeded, List.length_flatten]

/-- C3: whenever at least one chunk is pending, the render is the loading
view (with its progress counter), regardless of the other chunks'
states. -/
theorem pending_gates_render (queries : List QueryState) (n : Nat)
    (h : QueryState.pending ∈ queries) :
    render queries n = .loadingView (loadedCount queries) n := by
  rw [render, if_pos ((isLoading_iff queries).mpr h)]

/-- C3 witness: one pending chunk among a succeeded and a failed one still
renders the loading view. -/
theorem pending_gates_render_witness :
    render [QueryState.succeeded [], QueryState.pending,
        QueryState.failed "boom"] 3 =
      .loadingView (loadedCount [QueryState.succeeded [], QueryState.pending,
        QueryState.failed "boom"]) 3 :=
  pending_gates_render _ 3 (by decide)

/-- C4: the render is the error view with message `e` exactly when no chunk
is pending and the first failed chunk (in chunk order) carries error `e`;
that view discards the deal records of all succeeded chunks, since the
error view carries only the representative message. -/
theorem failed_render_iff (queries : List QueryState) (n : Nat) (e : String) :
    render queries n = .errorView e ↔
      (QueryState.pending ∉ queries ∧ (errors queries).head? = some e) := by
  rw [render]
  by_cases hl : isLoading queries
  · rw [if_pos hl]
    constructor
    · intro h
      exact absurd h (by simp)
    · rintro ⟨hp, _⟩
      exact absurd ((isLoading_iff queries).mp hl) hp
  · rw [if_neg hl]
    have hp : QueryState.pending ∉ queries := fun hmem =>
      hl ((isLoading_iff queries).mpr hmem)
    rcases herrs : errors queries with _ | ⟨x, rest⟩
    · rw [if_neg (by simp)]
      constructor
      · intro h
        exact absurd h (by simp)
      · rintro ⟨_, hhead⟩
        simp at hhead
    · rw [if_pos (by simp)]
      simp only [List.headD_cons, List.head?_cons]
      constructor
      · intro h
        injection h with hx
        exact ⟨hp, by rw [hx]⟩
      · rintro ⟨_, hhead⟩
        injection hhead with hx
        rw [hx]

/-- C5: for the empty identifier list zero chunks are produced, zero
lookups are issued (no query keys), and the render is immediately the
succeeded view with an empty result set. -/
theorem empty_input_succeeds :
    chunks [] = [] ∧
    queryKeys [] = [] ∧
    render [] ((chunks []).length) = .dealsView [] := by
  have hc : chunks [] = [] := by
    rw [chunks, chunksLoop_unfold]
    simp
  refine ⟨hc, ?_, ?_⟩
  · rw [queryKeys, hc]
    rfl
  · rfl

/-- C6: while the aggregate is pending, the progress indicator equals the
number of chunks whose query has succeeded (failed chunks are not
counted), out of the total chunk count shown beside it. -/
theorem progress_counts_successes (queries : List QueryState) (n : Nat)
    (h : QueryState.pending ∈ queries) :
    render queries n = .loadingView (loadedCount queries) n ∧
    loadedCount queries = (queries.filter isSucceeded).length := by
  constructor
  · rw [render, if_pos ((isLoading_iff queries).mpr h)]
  · rw [loadedCount]
    rw [List.filter_congr (fun q _ => data_isSome_eq_isSucceeded q)]

/-- C6 witness: with one succeeded, one failed and one pending chunk the
progress counter is 1 of 3 — the failed chunk is not counted. -/
theorem progress_counts_successes_witness :
    render [QueryState.succeeded [], QueryState.failed "boom",
        QueryState.pending] 3 =
      .loadingView (loadedCount [QueryState.succeeded [],
        QueryState.failed "boom", QueryState.pending]) 3 ∧
    loadedCount [QueryState.succeeded [], QueryState.failed "boom",
        QueryState.pending] =
      ([QueryState.succeeded [], QueryState.failed "boom",
        QueryState.pending].filter isSucceeded).length :=
  progress_counts_successes _ 3 (by decide)

/-- C7: aggregation is deterministic in its input — equal identifier lists
produce equal chunk partitions and equal per-chunk cache keys — and when
every chunk key already has a fresh cache entry (within the 5-minute
`staleTime` window), zero chunk queries issue a network call. The cache
layer itself is modelled from the spec, react-query being an external
collaborator. -/
theorem aggregation_deterministic (appids1 appids2 : List Nat)
    (cache : List ((String × List Nat) × CacheEntry)) (now : Nat)
    (heq : appids1 = appids2)
    (hfresh : ∀ k ∈ queryKeys appids1, ∃ entry,
      lookupCache cache k = some entry ∧ cacheFresh entry now = true) :
    chunks appids1 = chunks appids2 ∧
    queryKeys appids1 = queryKeys appids2 ∧
    networkCallsIssued cache now appids1 = 0 := by
  subst heq
  refine ⟨rfl, rfl, ?_⟩
  rw [networkCallsIssued, List.length_eq_zero, List.filter_eq_nil_iff]
  intro k hk
  rcases hfresh k hk with ⟨entry, hentry, hfr⟩
  simp [issuesNetworkCall, hentry, hfr]

/-- C7 witness: re-invoking with the same one-chunk list against a cache
holding a fresh entry for its key issues zero network calls. -/
theorem aggregation_deterministic_witness :
    chunks [3] = chunks [3] ∧ queryKeys [3] = queryKeys [3] ∧
    networkCallsIssued [(("appids", [3]), ⟨[], 0⟩)] 0 [3] = 0 := by
  apply aggregation_deterministic [3] [3] _ 0 rfl
  intro k hk
  have hc : chunks [3] = [[3]] := by
    rw [chunks]
    rw [chunksLoop_unfold, if_pos (by decide)]
    rw [chunksLoop_unfold, if_neg (by decide)]
    decide
  have hkeys : queryKeys [3] = [("appids", [3])] := by
    rw [queryKeys, hc]
    rfl
  rw [hkeys] at hk
  simp only [List.mem_singleton] at hk
  subst hk
  exact ⟨⟨[], 0⟩, rfl, by decide⟩

/-- C8: `fetchDealsGG` never swallows a failure — a failed request is
rethrown as the same error (after logging, which does not change the
value), never converted into a success value, and a successful response
body is returned unchanged; the function performs exactly one request, so
no retry exists in this code. -/
theorem fetchDealsGG_propagates (e : String) (d : List DealsGGItem) :
    fetchDealsGG (NetResponse.fail e) = Except.error e ∧
    fetchDealsGG (NetResponse.fail e) ≠ Except.ok d ∧
    fetchDealsGG (NetResponse.ok d) = Except.ok d := by
  refine ⟨rfl, ?_, rfl⟩
  intro hcontra
  exact Except.noConfusion hcontra

/-- C9: every produced chunk is non-empty; chunk j (0-based) has exactly
min(50, N − 50·j) elements, and every chunk other than the last has
exactly BATCH_SIZE = 50 elements. -/
theorem chunk_sizes (appids : List Nat) (j : Nat)
    (h : j < (chunks appids).length) :
    ((chunks appids).getD j []).length =
      min BATCH_SIZE (appids.length - BATCH_SIZE * j) ∧
    (chunks appids).getD j [] ≠ [] ∧
    (j + 1 < (chunks appids).length →
      ((chunks appids).getD j []).length = BATCH_SIZE) := by
  have hgetD : (chunks appids).getD j [] = (chunks appids).get ⟨j, h⟩ := by
    rw [List.getD_eq_getElem _ _ h]
    rfl
  have hlen := chunks_get_length appids j h
  have hmem : (chunks appids).get ⟨j, h⟩ ∈ chunks appids := List.get_mem _ _ h
  have hne := (chunksLoop_mem appids 0 _ hmem).2
  refine ⟨by rw [hgetD]; exact hlen, by rw [hgetD]; exact hne, ?_⟩
  intro hj1
  rw [hgetD, hlen]
  have hnum : (chunks appids).length =
      (appids.length - 0 + BATCH_SIZE - 1) / BATCH_SIZE := by
    rw [chunks, chunksLoop_length]
  rw [hnum] at hj1
  simp only [BATCH_SIZE] at hj1 ⊢
  omega

/-- C9 witness: for 60 identifiers the first chunk has exactly 50
elements, is non-empty, and the last chunk has the remaining 10. -/
theorem chunk_sizes_witness :
    ((chunks (List.replicate 60 0)).getD 0 []).length = 50 ∧
    (chunks (List.replicate 60 0)).getD 0 [] ≠ [] ∧
    ((chunks (List.replicate 60 0)).getD 1 []).length = 10 := by
  have h : 0 < (chunks (List.replicate 60 0)).length := by
    rw [chunks, chunksLoop_length]
    decide
  have h1 : 1 < (chunks (List.replicate 60 0)).length := by
    rw [chunks, chunksLoop_length]
    decide
  refine ⟨?_, (chunk_sizes (List.replicate 60 0) 0 h).2.1, ?_⟩
  · rw [(chunk_sizes (List.replicate 60 0) 0 h).1]
    decide
  · rw [(chunk_sizes (List.replicate 60 0) 1 h1).1]
    decide

/-- C10: the aggregator performs no deduplication — concatenating the
produced chunks gives back exactly the original identifier list, so an
identifier occurring k times in the input occurs exactly k times, at its
original positions, across the chunks (and hence yields one lookup per
occurrence). -/
theorem no_deduplication (appids : List Nat) (x : Nat) :
    (chunks appids).flatten = appids ∧
    ((chunks appids).map fun c => c.count x).sum = appids.count x := by
  have h : (chunks appids).flatten = appids := by
    rw [chunks, chunksLoop_flatten, List.drop_zero]
  refine ⟨h, ?_⟩
  rw [← List.count_flatten, h]

end SteamDeals
